import Mathlib

/-!
Verification development for the sharenv server (src/server.py).

The Python source is shallowly embedded over `List Char` strings:
* file contents are the list of raw text lines (`Content`),
* the MD5 content hash is modelled as an injective fingerprint, i.e. the
  content itself (`get_file_hash` is the identity on the optional content),
* `time.time()` is modelled as a natural-number clock (the spec's "time unit"),
* `random.choice` is modelled by an externally supplied index oracle `k`:
  the caller passes an arbitrary natural number and the selector reduces it
  modulo the candidate count, so a uniformly distributed oracle induces the
  uniform choice the source makes,
* the module-level mutable cache dictionaries become the explicit
  `ServerState` record threaded through the functions.
-/

/-- Character strings, modelled as lists of characters. -/
abbrev Str := List Char

/-- A file's content: its raw text lines (readline terminators stripped away
by the per-line processing exactly as `line.strip()` does in the source). -/
abbrev Content := List Str

/-- Hash values; MD5 is modelled as an injective fingerprint of the content. -/
abbrev Hash := Content

/-- Python whitespace characters recognised by `str.strip()`. -/
def isPySpace (c : Char) : Bool :=
  c == ' ' || c == '\t' || c == '\n' || c == '\r' || c == '\x0b' || c == '\x0c'

/-- `str.strip()`: remove leading and trailing whitespace. -/
def pyStrip (s : Str) : Str :=
  ((s.dropWhile isPySpace).reverse.dropWhile isPySpace).reverse

/-- `[line.strip() for line in f.readlines() if line.strip()]`: the stripped
non-empty lines of a file, in order. -/
def pyLines (c : Content) : List Str :=
  (c.map pyStrip).filter (fun l => !l.isEmpty)

/-- `CACHE_TTL = 1` (server.py line 24), in abstract time units. -/
def CACHE_TTL : Nat := 1

/-- The process-wide mutable cache state of server.py (lines 49-54):
`_values_cache`, `_cache_timestamps`, `_file_hashes`, `_aliases_cache`,
`_aliases_hash`.  Dictionary lookup is `Option`-valued function application. -/
structure ServerState where
  values_cache : Str → Option (List Str)
  cache_timestamps : Str → Option Nat
  file_hashes : Str → Option (Option Hash)
  aliases_cache : Option (List Str)
  aliases_hash : Option Hash

/-- The cache state at module initialisation: every map empty. -/
def init_state : ServerState :=
  { values_cache := fun _ => none
    cache_timestamps := fun _ => none
    file_hashes := fun _ => none
    aliases_cache := none
    aliases_hash := none }

/-- A directory entry as seen by `VARS_DIR.iterdir()`: its file name and
whether it is a regular file. -/
structure DirEntry where
  name : Str
  isFile : Bool

/-- The file system visible to the server: the variables directory (absent or
a list of entries), the content of each variable file `VARS_DIR / name`, and
the content of the aliases file. -/
structure FS where
  varsDir : Option (List DirEntry)
  varFile : Str → Option Content
  aliasesFile : Option Content

/-- Pointwise update of an `Option`-valued map: models both dictionary
assignment (`some v`) and `del` (`none`). -/
def updateMap {α : Type} (f : Str → Option α) (n : Str) (v : Option α) : Str → Option α :=
  fun m => if m = n then v else f m

/-- `get_file_hash` (server.py lines 82-88): MD5 of the file bytes, `None`
when the file cannot be opened.  The hash is modelled as the content itself. -/
def get_file_hash (file : Option Content) : Option Hash := file

/-- `read_var_file` (server.py lines 91-103): `None` when the file is missing
(or unreadable), otherwise the stripped non-empty lines, `None` when there
are no such lines. -/
def read_var_file (fs : FS) (var_name : Str) : Option (List Str) :=
  match fs.varFile var_name with
  | none => none
  | some content =>
      let lines := pyLines content
      if lines.isEmpty then none else some lines

/-- Value selection (server.py lines 138-144): `random.choice(values)` when
more than one candidate exists, else `values[0]`.  The random draw is the
supplied index oracle `k`, reduced modulo the candidate count. -/
def select_value (values : List Str) (k : Nat) : Str :=
  if 1 < values.length then values.getD (k % values.length) [] else values.headD []

/-- Writing a fresh cache entry (server.py lines 126-128 and 134-136):
replace the value list, the stored hash and the timestamp for `var_name`. -/
def cache_write (st : ServerState) (var_name : Str) (values : List Str)
    (h : Option Hash) (t : Nat) : ServerState :=
  { st with
    values_cache := updateMap st.values_cache var_name (some values)
    file_hashes := updateMap st.file_hashes var_name (some h)
    cache_timestamps := updateMap st.cache_timestamps var_name (some t) }

/-- `get_var_value` (server.py lines 106-144).  Returns the selected value
(or `none`) together with the updated cache state. -/
def get_var_value (st : ServerState) (fs : FS) (current_time : Nat)
    (var_name : Str) (k : Nat) : Option Str × ServerState :=
  let current_hash := get_file_hash (fs.varFile var_name)
  match st.values_cache var_name, st.file_hashes var_name with
  | some cached_values, some stored_hash =>
      let cache_time := (st.cache_timestamps var_name).getD 0
      if stored_hash = current_hash ∧ current_time - cache_time < CACHE_TTL then
        (some (select_value cached_values k), st)
      else
        match read_var_file fs var_name with
        | none => (none, st)
        | some values =>
            (some (select_value values k), cache_write st var_name values current_hash current_time)
  | _, _ =>
      match read_var_file fs var_name with
      | none => (none, st)
      | some values =>
          (some (select_value values k), cache_write st var_name values current_hash current_time)

/-- Loop body of `load_all_vars` (server.py lines 154-159): a directory entry
contributes a variable exactly when it is a regular file whose name does not
start with a dot and `get_var_value` returns a value. -/
def load_vars_step (fs : FS) (t : Nat) (ks : Str → Nat)
    (acc : List (Str × Str) × ServerState) (e : DirEntry) :
    List (Str × Str) × ServerState :=
  if e.isFile = true ∧ ¬ e.name.head? = some '.' then
    match get_var_value acc.2 fs t e.name (ks e.name) with
    | (some v, st2) => (acc.1 ++ [(e.name, v)], st2)
    | (none, st2) => (acc.1, st2)
  else acc

/-- `load_all_vars` (server.py lines 147-161): create the directory and return
an empty mapping when it does not exist, otherwise collect `name -> value`
for every qualifying entry (the Python dict keyed by unique file names is
modelled as the association list in iteration order). -/
def load_all_vars (fs : FS) (st : ServerState) (t : Nat) (ks : Str → Nat) :
    List (Str × Str) × ServerState × FS :=
  match fs.varsDir with
  | none => ([], st, { fs with varsDir := some [] })
  | some entries =>
      let r := entries.foldl (load_vars_step fs t ks) ([], st)
      (r.1, r.2, fs)

/-- `line.startswith('alias ')` (server.py line 185). -/
def startsWithAlias (l : Str) : Bool :=
  "alias ".toList.isPrefixOf l

/-- The quoting test of server.py lines 197-198: the (stripped) value starts
and ends with a single quote, or starts and ends with a double quote. -/
def quoted (v : Str) : Bool :=
  (v.head? == some '\'' && v.getLast? == some '\'') ||
  (v.head? == some '"' && v.getLast? == some '"')

/-- `alias_name = parts[0].strip()` where `parts = line.split('=', 1)`
(server.py lines 192-193). -/
def alias_name_of (line : Str) : Str :=
  pyStrip (line.takeWhile (fun c => c != '='))

/-- `alias_value = parts[1].strip()` where `parts = line.split('=', 1)`
(server.py lines 192-194). -/
def alias_value_of (line : Str) : Str :=
  pyStrip (line.drop ((line.takeWhile (fun c => c != '=')).length + 1))

/-- The per-line alias normalisation, the loop body of `load_aliases`
(server.py lines 184-206): pass `alias ...` lines through; split other lines
on the first `=` and requote the value when needed; lines without `=` become
a bare `alias NAME`. -/
def format_alias_line (line : Str) : Str :=
  if startsWithAlias line then line
  else if line.contains '=' then
    if quoted (alias_value_of line) then
      "alias ".toList ++ alias_name_of line ++ '=' :: alias_value_of line
    else
      "alias ".toList ++ alias_name_of line ++ '=' :: '\'' :: (alias_value_of line ++ ['\''])
  else
    "alias ".toList ++ pyStrip line

/-- `load_aliases` (server.py lines 164-215): empty when the aliases file is
missing; reuse the cached list while the stored hash matches the current file
hash; otherwise re-parse every line and refresh the cache. -/
def load_aliases (fs : FS) (st : ServerState) : List Str × ServerState :=
  match fs.aliasesFile with
  | none => ([], st)
  | some content =>
      let current_hash := get_file_hash (some content)
      match st.aliases_cache with
      | some cached =>
          if st.aliases_hash = current_hash then (cached, st)
          else
            let aliases := (pyLines content).map format_alias_line
            (aliases, { st with aliases_cache := some aliases, aliases_hash := current_hash })
      | none =>
          let aliases := (pyLines content).map format_alias_line
          (aliases, { st with aliases_cache := some aliases, aliases_hash := current_hash })

/-- `validate_token` (server.py lines 232-237): exact equality with the
process secret. -/
def validate_token (secret token : Str) : Bool :=
  if token ≠ secret then false else true

/-- The three chained `str.replace` calls of server.py line 398, specialised
to a single-character needle: each occurrence of `old` becomes `new`. -/
def pyReplaceChar (old : Char) (new : Str) : Str → Str
  | [] => []
  | c :: cs => (if c = old then new else [c]) ++ pyReplaceChar old new cs

/-- The export-value escaping of server.py line 398:
`value.replace('\\','\\\\').replace('"','\\"').replace('$','\\$')`. -/
def escape_value (v : Str) : Str :=
  pyReplaceChar '$' ['\\', '$'] (pyReplaceChar '"' ['\\', '"'] (pyReplaceChar '\\' ['\\', '\\'] v))

/-- Modelled from the spec: "apply as a single left-to-right pass over the
original value" - one traversal escaping backslash, double quote and dollar,
never revisiting characters produced by an earlier escape.  Used only to
compare against `escape_value`, the escaping the source performs. -/
def single_pass_escape : Str → Str
  | [] => []
  | c :: cs =>
      (if c = '\\' then ['\\', '\\']
       else if c = '"' then ['\\', '"']
       else if c = '$' then ['\\', '$'] else [c]) ++ single_pass_escape cs

/-- One `export NAME="VALUE"` line (server.py line 399). -/
def export_line (p : Str × Str) : Str :=
  "export ".toList ++ p.1 ++ "=\"".toList ++ escape_value p.2 ++ "\"".toList

/-- Lexicographic comparison of strings by character code, the order Python
uses when sorting the variable names. -/
def lexLe : Str → Str → Bool
  | [], _ => true
  | _ :: _, [] => false
  | a :: as, b :: bs => if a < b then true else if b < a then false else lexLe as bs

/-- The sort key relation of `sorted(vars_dict.items())` (server.py line 396):
the dict's keys are distinct file names, so Python's tuple order coincides
with ordering by name. -/
def pairLe (p q : Str × Str) : Prop :=
  lexLe p.1 q.1 = true

instance : DecidableRel pairLe :=
  fun p q => inferInstanceAs (Decidable (lexLe p.1 q.1 = true))

/-- `sorted(vars_dict.items())`: a stable sort of the variable/value pairs by
variable name. -/
def sortedPairs (l : List (Str × Str)) : List (Str × Str) :=
  l.insertionSort pairLe

/-- `'\n'.join(all_commands)` (server.py line 406). -/
def joinLines : List Str → Str
  | [] => []
  | [l] => l
  | l :: l2 :: ls => l ++ '\n' :: joinLines (l2 :: ls)

/-- Splitting a joined body back into its lines (for stating which lines a
response body consists of). -/
def splitOnChar (c : Char) : Str → List Str
  | [] => [[]]
  | x :: xs =>
      match splitOnChar c xs with
      | [] => if x = c then [[], []] else [[x]]
      | r :: rs => if x = c then [] :: r :: rs else (x :: r) :: rs

/-- An HTTP response as produced by the handler: Flask's `Response` defaults
to status 200. -/
structure HttpResponse where
  status : Nat
  mimetype : Str
  body : Str

/-- The warning body served on token mismatch (server.py line 388). -/
def warning_message : Str :=
  "echo \"Warning: Invalid sharenv key. Please check your SHARENV_ENDPOINT configuration.\"".toList

/-- `get_env_vars` (server.py lines 379-417): the `/<token>` handler.  Returns
the response together with the resulting cache state and file system. -/
def get_env_vars (secret token : Str) (fs : FS) (st : ServerState) (t : Nat)
    (ks : Str → Nat) : HttpResponse × ServerState × FS :=
  if validate_token secret token then
    let r1 := load_all_vars fs st t ks
    let r2 := load_aliases r1.2.2 r1.2.1
    let export_commands := (sortedPairs r1.1).map export_line
    let all_commands := export_commands ++ r2.1
    (⟨200, "text/plain".toList, joinLines all_commands⟩, r2.2, r1.2.2)
  else
    (⟨200, "text/plain".toList, warning_message⟩, st, fs)

/-- `Path.stem` of a file name: the name with its final suffix removed, kept
only when the last dot is neither the first character nor the last. -/
def pathStem (name : Str) : Str :=
  let suffixLen := (name.reverse.takeWhile (fun c => c != '.')).length
  if suffixLen < name.length ∧ 0 < name.length - suffixLen - 1 ∧ 0 < suffixLen then
    name.take (name.length - suffixLen - 1)
  else name

/-- The location of a modification event relative to the watched paths. -/
inductive FsEvent where
  | varsFile (fileName : Str)
  | aliasesFile
  | other

/-- `VarsFileHandler.on_modified` (server.py lines 60-79): for a
non-directory event under the variables directory, delete the value and hash
entries keyed by the event path's stem; for the aliases file, clear the alias
cache and hash; otherwise do nothing.  Timestamps are not touched. -/
def on_modified (st : ServerState) (is_directory : Bool) (ev : FsEvent) : ServerState :=
  if is_directory then st
  else
    match ev with
    | .varsFile fileName =>
        let var_name := pathStem fileName
        { st with
          values_cache := updateMap st.values_cache var_name none
          file_hashes := updateMap st.file_hashes var_name none }
    | .aliasesFile => { st with aliases_cache := none, aliases_hash := none }
    | .other => st

/-- A cache hit as tested by server.py lines 115-118: a value entry and a
hash entry both exist, the stored hash equals the current file hash, and the
entry's age is under the TTL. -/
def cache_hit (st : ServerState) (fs : FS) (t : Nat) (n : Str) : Prop :=
  ∃ vs h, st.values_cache n = some vs ∧ st.file_hashes n = some h ∧
    h = get_file_hash (fs.varFile n) ∧
    t - (st.cache_timestamps n).getD 0 < CACHE_TTL

/-- A cache state whose entries were written by the code itself: whenever a
value list is cached together with a hash of some content, the list is the
parse of that content. -/
def CacheCoherent (st : ServerState) : Prop :=
  ∀ n vs c, st.values_cache n = some vs → st.file_hashes n = some (some c) →
    vs = pyLines c

/-- Directory listing for the end-to-end example: files `FOO` and `BAR`. -/
def demoEntries : List DirEntry :=
  [⟨"FOO".toList, true⟩, ⟨"BAR".toList, true⟩]

/-- File system for the end-to-end example of the spec: `FOO` holds the line
`one`, `BAR` holds the lines `x` and `y`, the aliases file holds `ll=ls -la`. -/
def demoFS : FS :=
  { varsDir := some demoEntries
    varFile := fun n =>
      if n = "FOO".toList then some ["one".toList]
      else if n = "BAR".toList then some ["x".toList, "y".toList]
      else none
    aliasesFile := some ["ll=ls -la".toList] }

/-- A concrete secret token for the end-to-end example. -/
def demoToken : Str := "tok".toList

/-- The canonical alias line the formatter produces from `ll=ls -la`. -/
def demoAliasOut : Str :=
  "alias ll=".toList ++ '\'' :: ("ls -la".toList ++ ['\''])

/-- The end-to-end response body as a function of the random draw used for
`BAR` (the draw for the single-valued `FOO` is irrelevant). -/
def demoBody (k : Nat) : Str :=
  (get_env_vars demoToken demoToken demoFS init_state 0 (fun _ => k)).1.body

/-- Expected body lines when the draw picks `x` for `BAR`. -/
def demoLinesX : List Str :=
  ["export BAR=\"x\"".toList, "export FOO=\"one\"".toList, demoAliasOut]

/-- Expected body lines when the draw picks `y` for `BAR`. -/
def demoLinesY : List Str :=
  ["export BAR=\"y\"".toList, "export FOO=\"one\"".toList, demoAliasOut]

/-- The variable name used by the concrete cache fixtures. -/
def vName : Str := "V".toList

/-- The single candidate value used by the concrete cache fixtures. -/
def aVal : Str := "a".toList

/-- A file system in which the file for `vName` exists with the single line
`a`. -/
def fsA : FS :=
  { varsDir := some [⟨vName, true⟩]
    varFile := fun n => if n = vName then some [aVal] else none
    aliasesFile := none }

/-- A file system in which the variables directory exists but the file for
`vName` is gone. -/
def fsGone : FS :=
  { varsDir := some []
    varFile := fun _ => none
    aliasesFile := none }

/-- A file system with no variables directory at all. -/
def fsNoDir : FS :=
  { varsDir := none
    varFile := fun _ => none
    aliasesFile := none }

/-- A cache state holding a fresh entry for `vName` as `get_var_value` would
have written it against `fsA` at time 0. -/
def stHit : ServerState :=
  { init_state with
    values_cache := updateMap init_state.values_cache vName (some [aVal])
    file_hashes := updateMap init_state.file_hashes vName (some (get_file_hash (fsA.varFile vName)))
    cache_timestamps := updateMap init_state.cache_timestamps vName (some 0) }

/-- A file name with an extension, under which the loader caches a value. -/
def txtName : Str := "FOO.txt".toList

/-- A file system whose variables directory holds the single file
`FOO.txt`. -/
def fsTxt : FS :=
  { varsDir := some [⟨txtName, true⟩]
    varFile := fun n => if n = txtName then some [aVal] else none
    aliasesFile := none }

/-- A cache state holding the entry the loader creates for `FOO.txt`. -/
def stTxt : ServerState :=
  { init_state with
    values_cache := updateMap init_state.values_cache txtName (some [aVal])
    file_hashes := updateMap init_state.file_hashes txtName (some (some [aVal])) }

/-- A variable name and file used by the selection witness: one non-empty
line surrounded by whitespace. -/
def nmW : Str := "W".toList

/-- File system for the selection witness: `W` contains one padded line. -/
def fsSingle : FS :=
  { varsDir := some [⟨nmW, true⟩]
    varFile := fun n => if n = nmW then some ["  one  ".toList] else none
    aliasesFile := none }

theorem pyReplaceChar_append (old : Char) (new : Str) (xs ys : Str) :
    pyReplaceChar old new (xs ++ ys) = pyReplaceChar old new xs ++ pyReplaceChar old new ys := by
  induction xs with
  | nil => simp [pyReplaceChar]
  | cons c cs ih => simp [pyReplaceChar, ih]

/-- Claim C1: the export escaping replaces backslash, double quote and dollar
in that order as three whole-string passes, which coincides with a single
left-to-right pass over the original value in which backslashes introduced by
an earlier escape are never re-escaped; the value `a"b\c$d` escapes to
`a\"b\\c\$d`. -/
theorem escape_value_single_pass :
    (∀ v : Str, escape_value v = single_pass_escape v) ∧
    escape_value "a\"b\\c$d".toList = "a\\\"b\\\\c\\$d".toList := by
  constructor
  · intro v
    induction v with
    | nil => rfl
    | cons c cs ih =>
      by_cases h1 : c = '\\'
      · subst h1
        simp [escape_value, pyReplaceChar, pyReplaceChar_append, single_pass_escape] at ih ⊢
        exact ih
      · by_cases h2 : c = '"'
        · subst h2
          simp [escape_value, pyReplaceChar, pyReplaceChar_append, single_pass_escape] at ih ⊢
          exact ih
        · by_cases h3 : c = '$'
          · subst h3
            simp [escape_value, pyReplaceChar, pyReplaceChar_append, single_pass_escape] at ih ⊢
            exact ih
          · simp [escape_value, pyReplaceChar, pyReplaceChar_append, single_pass_escape,
              h1, h2, h3] at ih ⊢
            exact ih
  · decide

theorem takeWhile_first_eq : ∀ (n v : Str), '=' ∉ n →
    (n ++ '=' :: v).takeWhile (fun c => c != '=') = n
  | [], v, _ => by simp [List.takeWhile_cons]
  | a :: as, v, hn => by
      have ha : (a != '=') = true := by
        have h : a ≠ '=' := fun h => hn (by simp [h])
        exact bne_iff_ne.mpr h
      have ih := takeWhile_first_eq as v (fun h => hn (List.mem_cons_of_mem a h))
      simp [List.takeWhile_cons, ha, ih]

theorem drop_after_first_eq : ∀ (n v : Str), (n ++ '=' :: v).drop (n.length + 1) = v
  | [], v => by simp
  | a :: as, v => by
      simp only [List.cons_append, List.length_cons, List.drop_succ_cons]
      exact drop_after_first_eq as v

theorem contains_append_eq (n v : Str) : (n ++ '=' :: v).contains '=' = true := by
  simp [List.contains]

/-- Claim C3: a non-`alias`-prefixed line containing `=` is split on the first
`=`; the value is kept as-is when already wrapped in a matching pair of
quotes, otherwise wrapped in single quotes; a line without `=` becomes a bare
`alias NAME`; `FOO=bar`, `FOO="bar"` and `justname` map to `alias FOO='bar'`,
`alias FOO="bar"` and `alias justname`. -/
theorem format_alias_line_spec :
    (∀ n v : Str, '=' ∉ n → startsWithAlias (n ++ '=' :: v) = false →
        format_alias_line (n ++ '=' :: v) =
          "alias ".toList ++ pyStrip n ++ '=' ::
            (if quoted (pyStrip v) then pyStrip v
             else '\'' :: (pyStrip v ++ ['\'']))) ∧
    (∀ l : Str, startsWithAlias l = false → l.contains '=' = false →
        format_alias_line l = "alias ".toList ++ pyStrip l) ∧
    format_alias_line "FOO=bar".toList = "alias FOO=".toList ++ '\'' :: ("bar".toList ++ ['\'']) ∧
    format_alias_line "FOO=\"bar\"".toList = "alias FOO=\"bar\"".toList ∧
    format_alias_line "justname".toList = "alias justname".toList := by
  refine ⟨?_, ?_, by decide, by decide, by decide⟩
  · intro n v hn hsw
    have h1 : alias_name_of (n ++ '=' :: v) = pyStrip n := by
      unfold alias_name_of
      rw [takeWhile_first_eq n v hn]
    have h2 : alias_value_of (n ++ '=' :: v) = pyStrip v := by
      unfold alias_value_of
      rw [takeWhile_first_eq n v hn, drop_after_first_eq n v]
    have h3 : ¬ (startsWithAlias (n ++ '=' :: v) = true) := by
      rw [hsw]
      simp
    have h4 := contains_append_eq n v
    unfold format_alias_line
    rw [if_neg h3, if_pos h4, h1, h2]
    by_cases hq : quoted (pyStrip v) = true
    · rw [if_pos hq, if_pos hq]
    · rw [if_neg hq, if_neg hq]
  · intro l hsw hc
    have h1 : ¬ (startsWithAlias l = true) := by
      rw [hsw]
      simp
    have h2 : ¬ (l.contains '=' = true) := by
      rw [hc]
      simp
    unfold format_alias_line
    rw [if_neg h1, if_neg h2]

theorem format_alias_line_spec_witness :
    format_alias_line ("A".toList ++ '=' :: "b".toList) =
      "alias ".toList ++ pyStrip "A".toList ++ '=' ::
        (if quoted (pyStrip "b".toList) then pyStrip "b".toList
         else '\'' :: (pyStrip "b".toList ++ ['\''])) ∧
    format_alias_line "justname".toList = "alias ".toList ++ pyStrip "justname".toList :=
  ⟨format_alias_line_spec.1 "A".toList "b".toList (by decide) (by decide),
   format_alias_line_spec.2.1 "justname".toList (by decide) (by decide)⟩

theorem isPrefixOf_append_self (p r : Str) : p.isPrefixOf (p ++ r) = true := by
  induction p with
  | nil => simp [List.isPrefixOf]
  | cons a as ih => simp [List.isPrefixOf, ih]

theorem format_alias_line_startsWith (l : Str) :
    startsWithAlias (format_alias_line l) = true := by
  unfold format_alias_line
  split
  · assumption
  · split
    · split
      · exact isPrefixOf_append_self "alias ".toList _
      · exact isPrefixOf_append_self "alias ".toList _
    · exact isPrefixOf_append_self "alias ".toList _

theorem format_alias_line_passthrough (m : Str) (h : startsWithAlias m = true) :
    format_alias_line m = m := by
  unfold format_alias_line
  rw [if_pos h]

/-- Claim C4: the per-line alias transformation is idempotent, and an already
canonical `alias X='y'` line passes through identically. -/
theorem format_alias_line_idem :
    (∀ l : Str, format_alias_line (format_alias_line l) = format_alias_line l) ∧
    format_alias_line ("alias X=".toList ++ '\'' :: ("y".toList ++ ['\''])) =
      "alias X=".toList ++ '\'' :: ("y".toList ++ ['\'']) := by
  constructor
  · intro l
    exact format_alias_line_passthrough _ (format_alias_line_startsWith l)
  · decide

theorem gvv_hit (st : ServerState) (fs : FS) (t : Nat) (n : Str) (k : Nat)
    (vs : List Str) (h : Option Hash)
    (hv : st.values_cache n = some vs) (hh : st.file_hashes n = some h)
    (hhash : h = get_file_hash (fs.varFile n))
    (httl : t - (st.cache_timestamps n).getD 0 < CACHE_TTL) :
    get_var_value st fs t n k = (some (select_value vs k), st) := by
  unfold get_var_value
  rw [hv, hh]
  simp only []
  rw [if_pos ⟨hhash, httl⟩]

theorem gvv_miss_read (st : ServerState) (fs : FS) (t : Nat) (n : Str) (k : Nat)
    (vs : List Str) (hmiss : ¬ cache_hit st fs t n)
    (hr : read_var_file fs n = some vs) :
    get_var_value st fs t n k =
      (some (select_value vs k), cache_write st n vs (get_file_hash (fs.varFile n)) t) := by
  unfold get_var_value
  cases hv : st.values_cache n with
  | none =>
      cases hh : st.file_hashes n <;> simp [hv, hh, hr]
  | some vs0 =>
      cases hh : st.file_hashes n with
      | none => simp [hv, hh, hr]
      | some h0 =>
          have hcond : ¬ (h0 = get_file_hash (fs.varFile n) ∧
              t - (st.cache_timestamps n).getD 0 < CACHE_TTL) := by
            intro hc
            exact hmiss ⟨vs0, h0, hv, hh, hc.1, hc.2⟩
          simp [hv, hh, hcond, hr]

theorem gvv_miss_none (st : ServerState) (fs : FS) (t : Nat) (n : Str) (k : Nat)
    (hmiss : ¬ cache_hit st fs t n) (hr : read_var_file fs n = none) :
    get_var_value st fs t n k = (none, st) := by
  unfold get_var_value
  cases hv : st.values_cache n with
  | none =>
      cases hh : st.file_hashes n <;> simp [hv, hh, hr]
  | some vs0 =>
      cases hh : st.file_hashes n with
      | none => simp [hv, hh, hr]
      | some h0 =>
          have hcond : ¬ (h0 = get_file_hash (fs.varFile n) ∧
              t - (st.cache_timestamps n).getD 0 < CACHE_TTL) := by
            intro hc
            exact hmiss ⟨vs0, h0, hv, hh, hc.1, hc.2⟩
          simp [hv, hh, hcond, hr]

/-- Claim C5: the cached value list is reused exactly when a value entry and a
hash entry both exist, the stored hash equals the live file hash computed at
call time, and the entry's age is strictly below the TTL of one time unit; on
any failed condition the file is re-read and, on success, the entry is
replaced with the new list, hash and timestamp. -/
theorem get_var_value_cache_policy :
    (∀ (st : ServerState) (fs : FS) (t : Nat) (n : Str) (k : Nat)
        (vs : List Str) (h : Option Hash),
        st.values_cache n = some vs → st.file_hashes n = some h →
        h = get_file_hash (fs.varFile n) →
        t - (st.cache_timestamps n).getD 0 < CACHE_TTL →
        get_var_value st fs t n k = (some (select_value vs k), st)) ∧
    (∀ (st : ServerState) (fs : FS) (t : Nat) (n : Str) (k : Nat) (vs : List Str),
        ¬ cache_hit st fs t n → read_var_file fs n = some vs →
        get_var_value st fs t n k =
          (some (select_value vs k), cache_write st n vs (get_file_hash (fs.varFile n)) t)) :=
  ⟨fun st fs t n k vs h hv hh hhash httl => gvv_hit st fs t n k vs h hv hh hhash httl,
   fun st fs t n k vs hmiss hr => gvv_miss_read st fs t n k vs hmiss hr⟩

theorem get_var_value_cache_policy_witness :
    get_var_value stHit fsA 0 vName 0 = (some (select_value [aVal] 0), stHit) ∧
    get_var_value init_state fsA 0 vName 0 =
      (some (select_value [aVal] 0),
       cache_write init_state vName [aVal] (get_file_hash (fsA.varFile vName)) 0) := by
  constructor
  · exact get_var_value_cache_policy.1 stHit fsA 0 vName 0 [aVal] (some [aVal])
      (by decide) (by decide) (by decide) (by decide)
  · refine get_var_value_cache_policy.2 init_state fsA 0 vName 0 [aVal] ?_ (by decide)
    rintro ⟨vs, h, hv, hh, hx, ht⟩
    simp [init_state] at hv

/-- Claim C6 fails on the code: after a cache-invalid call whose re-read finds
the file gone, the stale value list, stored hash and timestamp all survive in
the cache - nothing is removed. -/
theorem get_var_value_stale_entry_counterexample :
    (get_var_value stHit fsGone 5 vName 0).1 = none ∧
    (get_var_value stHit fsGone 5 vName 0).2.values_cache vName = some [aVal] ∧
    (get_var_value stHit fsGone 5 vName 0).2.file_hashes vName = some (some [aVal]) ∧
    (get_var_value stHit fsGone 5 vName 0).2.cache_timestamps vName = some 0 := by
  decide

/-- Claim C6 amended: when a re-read is forced and the backing file no longer
exists or parses empty, the call returns absent and leaves the cache exactly
as it was - the stale entry is not removed. -/
theorem get_var_value_failed_reread_keeps_cache :
    ∀ (st : ServerState) (fs : FS) (t : Nat) (n : Str) (k : Nat),
      ¬ cache_hit st fs t n → read_var_file fs n = none →
      get_var_value st fs t n k = (none, st) :=
  fun st fs t n k hmiss hr => gvv_miss_none st fs t n k hmiss hr

theorem get_var_value_failed_reread_keeps_cache_witness :
    get_var_value stHit fsGone 5 vName 0 = (none, stHit) := by
  refine get_var_value_failed_reread_keeps_cache stHit fsGone 5 vName 0 ?_ (by decide)
  rintro ⟨vs, h, hv, hh, hx, ht⟩
  have hst : stHit.file_hashes vName = some (some [aVal]) := by decide
  rw [hst] at hh
  injection hh with hh2
  rw [← hh2] at hx
  exact absurd hx (by decide)

/-- Claim C7 fails on the code: the loader caches the file `FOO.txt` under its
full name, but the watcher invalidates by the path stem `FOO`, so after the
modification event the value and hash entries for `FOO.txt` are still
present. -/
theorem on_modified_stem_counterexample :
    (load_all_vars fsTxt init_state 0 (fun _ => 0)).1 = [(txtName, aVal)] ∧
    (on_modified stTxt false (FsEvent.varsFile txtName)).values_cache txtName = some [aVal] ∧
    (on_modified stTxt false (FsEvent.varsFile txtName)).file_hashes txtName = some (some [aVal]) := by
  decide

/-- Claim C7 amended: after a modification event for a non-directory file in
the variables directory the cache holds no value entry and no hash entry for
the STEM of the file name (the name with its final extension removed), which
equals the loader's cache key only for names without an extension; after an
event for the aliases file the alias cache and alias hash are both cleared. -/
theorem on_modified_invalidates_stem :
    (∀ (st : ServerState) (fname : Str),
        (on_modified st false (FsEvent.varsFile fname)).values_cache (pathStem fname) = none ∧
        (on_modified st false (FsEvent.varsFile fname)).file_hashes (pathStem fname) = none) ∧
    (∀ st : ServerState,
        (on_modified st false FsEvent.aliasesFile).aliases_cache = none ∧
        (on_modified st false FsEvent.aliasesFile).aliases_hash = none) := by
  constructor
  · intro st fname
    constructor <;> simp [on_modified, updateMap]
  · intro st
    constructor <;> simp [on_modified]

theorem select_single (v : Str) (k : Nat) : select_value [v] k = v := by
  simp [select_value]

theorem select_index (vs : List Str) (i : Nat) (hi : i < vs.length) :
    select_value vs i = vs.getD i [] := by
  by_cases h1 : 1 < vs.length
  · simp [select_value, h1, Nat.mod_eq_of_lt hi]
  · have hlen : vs.length = 1 := by omega
    obtain ⟨v, rfl⟩ := List.length_eq_one.mp hlen
    have : i = 0 := by omega
    subst this
    simp [select_value]

theorem select_mem (vs : List Str) (k : Nat) (h : vs ≠ []) :
    select_value vs k ∈ vs := by
  by_cases h1 : 1 < vs.length
  · have hpos : 0 < vs.length := by omega
    have hlt : k % vs.length < vs.length := Nat.mod_lt _ hpos
    simp only [select_value, if_pos h1]
    rw [List.getD_eq_getElem vs [] hlt]
    exact List.getElem_mem hlt
  · have hlen : vs.length = 1 := by
      have : vs.length ≠ 0 := fun h0 => h (List.length_eq_zero.mp h0)
      omega
    obtain ⟨v, rfl⟩ := List.length_eq_one.mp hlen
    simp [select_value]

/-- Claim C8: a variable whose file parses to exactly one line is returned
deterministically as that trimmed line (from any coherent cache state); the
selector applied to an in-range random index is exact list indexing, so a
uniform index draw selects uniformly among the candidates, and the selected
value is always an element of the candidate list. -/
theorem get_var_value_selection :
    (∀ (st : ServerState) (fs : FS) (t : Nat) (n : Str) (k : Nat) (c : Content) (v : Str),
        CacheCoherent st → fs.varFile n = some c → pyLines c = [v] →
        (get_var_value st fs t n k).1 = some v) ∧
    (∀ (vs : List Str) (k : Nat), vs ≠ [] → select_value vs k ∈ vs) ∧
    (∀ (vs : List Str) (i : Nat), i < vs.length → select_value vs i = vs.getD i []) ∧
    (∀ (v : Str) (k : Nat), select_value [v] k = v) := by
  refine ⟨?_, select_mem, select_index, select_single⟩
  intro st fs t n k c v hco hfile hlines
  by_cases hhit : cache_hit st fs t n
  · obtain ⟨vs, h, hv, hh, hx, ht⟩ := hhit
    have hhc : h = some c := by
      rw [hx, hfile]
      rfl
    have hvs : vs = pyLines c := hco n vs c hv (by rw [hh, hhc])
    rw [gvv_hit st fs t n k vs h hv hh hx ht]
    rw [hvs, hlines]
    simp [select_single]
  · have hread : read_var_file fs n = some [v] := by
      simp [read_var_file, hfile, hlines]
    rw [gvv_miss_read st fs t n k [v] hhit hread]
    simp [select_single]

theorem get_var_value_selection_witness :
    (get_var_value init_state fsSingle 3 nmW 7).1 = some "one".toList ∧
    select_value ["x".toList, "y".toList] 5 ∈ ["x".toList, "y".toList] :=
  ⟨get_var_value_selection.1 init_state fsSingle 3 nmW 7 ["  one  ".toList] "one".toList
      (fun n vs c hv _ => Option.noConfusion hv) (by decide) (by decide),
   get_var_value_selection.2.1 ["x".toList, "y".toList] 5 (by decide)⟩

/-- Claim C9: token validation is exact string equality with the process
secret, and any mismatching token receives status 200 with the constant
text/plain echo warning as body - no variable or alias data, and no cache or
file-system effect. -/
theorem invalid_token_response :
    (∀ secret token : Str, validate_token secret token = true ↔ token = secret) ∧
    (∀ (secret token : Str) (fs : FS) (st : ServerState) (t : Nat) (ks : Str → Nat),
        token ≠ secret →
        (get_env_vars secret token fs st t ks).1 =
          ⟨200, "text/plain".toList, warning_message⟩ ∧
        (get_env_vars secret token fs st t ks).2.1 = st ∧
        (get_env_vars secret token fs st t ks).2.2 = fs) := by
  constructor
  · intro s tk
    unfold validate_token
    by_cases h : tk = s <;> simp [h]
  · intro s tk fs st t ks hne
    have hv : validate_token s tk = false := by
      unfold validate_token
      simp [hne]
    refine ⟨?_, ?_, ?_⟩ <;> simp [get_env_vars, hv]

theorem invalid_token_response_witness :
    (get_env_vars "s".toList "t".toList fsGone init_state 0 (fun _ => 0)).1 =
      ⟨200, "text/plain".toList, warning_message⟩ :=
  (invalid_token_response.2 "s".toList "t".toList fsGone init_state 0 (fun _ => 0)
    (by decide)).1

theorem load_vars_mem_aux (fs : FS) (t : Nat) (ks : Str → Nat) :
    ∀ (entries : List DirEntry) (acc : List (Str × Str) × ServerState) (n v : Str),
      (n, v) ∈ (entries.foldl (load_vars_step fs t ks) acc).1 →
      (n, v) ∈ acc.1 ∨
        ∃ e ∈ entries, e.name = n ∧ e.isFile = true ∧ ¬ e.name.head? = some '.'
  | [], acc, n, v, h => Or.inl (by simpa using h)
  | e :: es, acc, n, v, h => by
      have hstep := load_vars_mem_aux fs t ks es (load_vars_step fs t ks acc e) n v
        (by simpa [List.foldl_cons] using h)
      rcases hstep with h1 | ⟨e2, he2, h2⟩
      · by_cases hc : e.isFile = true ∧ ¬ e.name.head? = some '.'
        · rw [load_vars_step, if_pos hc] at h1
          rcases hgv : get_var_value acc.2 fs t e.name (ks e.name) with ⟨vo, st2⟩
          rcases vo with _ | v0
          · rw [hgv] at h1
            exact Or.inl h1
          · rw [hgv] at h1
            simp only [List.mem_append, List.mem_singleton] at h1
            rcases h1 with h1 | h1
            · exact Or.inl h1
            · have hn : e.name = n := (congrArg Prod.fst h1).symm
              exact Or.inr ⟨e, List.mem_cons_self e es, hn, hc.1, hc.2⟩
        · rw [load_vars_step, if_neg hc] at h1
          exact Or.inl h1
      · exact Or.inr ⟨e2, List.mem_cons_of_mem e he2, h2⟩

/-- Claim C10: only regular files whose names do not start with a dot can
contribute variables, so hidden files and subdirectories never do; and when
the variables directory does not exist, it is created and the empty mapping
is returned. -/
theorem load_all_vars_filtering :
    (∀ (fs : FS) (st : ServerState) (t : Nat) (ks : Str → Nat)
        (entries : List DirEntry) (n v : Str), fs.varsDir = some entries →
        (n, v) ∈ (load_all_vars fs st t ks).1 →
        ∃ e ∈ entries, e.name = n ∧ e.isFile = true ∧ ¬ e.name.head? = some '.') ∧
    (∀ (fs : FS) (st : ServerState) (t : Nat) (ks : Str → Nat), fs.varsDir = none →
        load_all_vars fs st t ks = ([], st, { fs with varsDir := some [] })) := by
  constructor
  · intro fs st t ks entries n v hdir hmem
    have hm : (n, v) ∈ (entries.foldl (load_vars_step fs t ks) ([], st)).1 := by
      simpa [load_all_vars, hdir] using hmem
    rcases load_vars_mem_aux fs t ks entries ([], st) n v hm with h1 | h2
    · simp at h1
    · exact h2
  · intro fs st t ks hdir
    simp [load_all_vars, hdir]

theorem load_all_vars_filtering_witness :
    (∃ e ∈ demoEntries,
        e.name = "FOO".toList ∧ e.isFile = true ∧ ¬ e.name.head? = some '.') ∧
    load_all_vars fsNoDir init_state 0 (fun _ => 0) =
      ([], init_state, { fsNoDir with varsDir := some [] }) :=
  ⟨load_all_vars_filtering.1 demoFS init_state 0 (fun _ => 0) demoEntries
      "FOO".toList "one".toList rfl (by decide),
   load_all_vars_filtering.2 fsNoDir init_state 0 (fun _ => 0) rfl⟩

theorem lexLe_total : ∀ a b : Str, lexLe a b = true ∨ lexLe b a = true
  | [], _ => Or.inl rfl
  | _ :: _, [] => Or.inr rfl
  | a :: as, b :: bs => by
      by_cases h1 : a < b
      · exact Or.inl (by simp [lexLe, h1])
      · by_cases h2 : b < a
        · exact Or.inr (by simp [lexLe, h2])
        · rcases lexLe_total as bs with h | h
          · exact Or.inl (by simp [lexLe, h1, h2, h])
          · exact Or.inr (by simp [lexLe, h2, h1, h])

theorem lexLe_trans : ∀ a b c : Str, lexLe a b = true → lexLe b c = true → lexLe a c = true
  | [], _, _, _, _ => rfl
  | _ :: _, [], _, h1, _ => by simp [lexLe] at h1
  | _ :: _, _ :: _, [], _, h2 => by simp [lexLe] at h2
  | a :: as, b :: bs, c :: cs, h1, h2 => by
      simp only [lexLe] at h1 h2 ⊢
      by_cases hab : a < b
      · by_cases hbc : b < c
        · simp [lt_trans hab hbc]
        · by_cases hcb : c < b
          · simp [hbc, hcb] at h2
          · have hbceq : b = c := le_antisymm (not_lt.mp hcb) (not_lt.mp hbc)
            subst hbceq
            simp [hab]
      · by_cases hba : b < a
        · simp [hab, hba] at h1
        · have habeq : a = b := le_antisymm (not_lt.mp hba) (not_lt.mp hab)
          subst habeq
          simp only [lt_irrefl, if_false] at h1
          by_cases hac : a < c
          · simp [hac]
          · by_cases hca : c < a
            · simp [hac, hca] at h2
            · have haceq : a = c := le_antisymm (not_lt.mp hca) (not_lt.mp hac)
              subst haceq
              simp only [lt_irrefl, if_false] at h1 h2 ⊢
              exact lexLe_trans as bs cs h1 h2

theorem sortedPairs_sorted (l : List (Str × Str)) : List.Sorted pairLe (sortedPairs l) :=
  @List.sorted_insertionSort _ pairLe _
    ⟨fun p q => lexLe_total p.1 q.1⟩
    ⟨fun p q r hpq hqr => lexLe_trans p.1 q.1 r.1 hpq hqr⟩ l

theorem sortedPairs_perm (l : List (Str × Str)) : List.Perm (sortedPairs l) l :=
  List.perm_insertionSort pairLe l

theorem demo_body_split (k : Nat) :
    splitOnChar '\n' (demoBody k) = if k % 2 = 0 then demoLinesX else demoLinesY := by
  have hb : demoBody k = joinLines
      [export_line ("BAR".toList, ["x".toList, "y".toList].getD (k % 2) []),
       export_line ("FOO".toList, "one".toList), demoAliasOut] := rfl
  rw [hb]
  rcases Nat.mod_two_eq_zero_or_one k with h | h <;> rw [h] <;> decide

/-- Claim C2: a valid-token response body is the newline-join of one
`export NAME="VALUE"` line per resolved variable, sorted by variable name
(the sort is a permutation ordered under the name relation), followed by the
alias lines in formatter order; on the end-to-end example the body lines are
exactly `export BAR="x or y"`, `export FOO="one"`, `alias ll='ls -la'`. -/
theorem response_body_structure :
    (∀ (secret : Str) (fs : FS) (st : ServerState) (t : Nat) (ks : Str → Nat),
        (get_env_vars secret secret fs st t ks).1.body =
          joinLines ((sortedPairs (load_all_vars fs st t ks).1).map export_line ++
            (load_aliases (load_all_vars fs st t ks).2.2 (load_all_vars fs st t ks).2.1).1)) ∧
    (∀ l : List (Str × Str), List.Sorted pairLe (sortedPairs l)) ∧
    (∀ l : List (Str × Str), List.Perm (sortedPairs l) l) ∧
    (∀ ks : Str → Nat,
        splitOnChar '\n' (get_env_vars demoToken demoToken demoFS init_state 0 ks).1.body =
          demoLinesX ∨
        splitOnChar '\n' (get_env_vars demoToken demoToken demoFS init_state 0 ks).1.body =
          demoLinesY) := by
  refine ⟨?_, sortedPairs_sorted, sortedPairs_perm, ?_⟩
  · intro s fs st t ks
    have hv : validate_token s s = true := by
      unfold validate_token
      simp
    simp [get_env_vars, hv]
  · intro ks
    have hred : (get_env_vars demoToken demoToken demoFS init_state 0 ks).1.body =
        demoBody (ks "BAR".toList) := rfl
    rw [hred, demo_body_split (ks "BAR".toList)]
    rcases Nat.mod_two_eq_zero_or_one (ks "BAR".toList) with h | h
    · exact Or.inl (by rw [if_pos h])
    · refine Or.inr ?_
      rw [h]
      decide
